import Mathlib

/-!
Verification of the `useful_scripts` command-line utilities: a shallow
embedding of the four Python scripts (`flu_parse_header.py`,
`seqid_validate.py`, `trim_fasta.py`, `rmdup.py`) together with theorems
about their behaviour.  Strings are modelled as `List Char`; file contents
as lists of lines; fallible operations (Python exceptions) as `Except`.
-/

namespace HeaderSplitter

/-- Python `s.split(c)` for a single-character separator `c`, over
`List Char`: splits into the (always nonempty) list of chunks between
occurrences of `c`. -/
def pySplit (c : Char) : List Char → List (List Char)
  | [] => [[]]
  | x :: xs =>
    if x = c then [] :: pySplit c xs
    else
      match pySplit c xs with
      | [] => [[x]]
      | p :: ps => (x :: p) :: ps

/-- Python `str.strip()`: remove leading and trailing whitespace. -/
def pyStrip (l : List Char) : List Char :=
  ((l.dropWhile Char.isWhitespace).reverse.dropWhile Char.isWhitespace).reverse

/-- Attempt to match the regex tail `([^|]+)\|` at the start of `l`: a
nonempty run of non-bar characters followed by a bar; returns the captured
run on success. -/
def grabToken (l : List Char) : Option (List Char) :=
  let tok := l.takeWhile (fun c => c != '|')
  if tok.isEmpty then none
  else if tok.length < l.length then some tok else none

/-- `re.search` with the pattern from `flu_parse_header.py` (first group
captured between a pair of bar delimiters): leftmost match wins, `none`
when no position matches. -/
def findDelimToken : List Char → Option (List Char)
  | [] => none
  | x :: xs =>
    if x = '|' then
      match grabToken xs with
      | some tok => some tok
      | none => findDelimToken xs
    else findDelimToken xs

/-- `extract_and_split_headers` from `flu_parse_header.py`: every line
starting with the marker contributes its stripped header to the first
list; only lines whose header matches the delimiter-pair regex contribute
the slash-split token to the second list. -/
def extract_and_split_headers : List (List Char) → List (List Char) × List (List (List Char))
  | [] => ([], [])
  | line :: rest =>
    let r := extract_and_split_headers rest
    if line.head? = some '>' then
      let oh := pyStrip (line.drop 1)
      match findDelimToken oh with
      | some tok => (oh :: r.1, pySplit '/' tok :: r.2)
      | none => (oh :: r.1, r.2)
    else r

/-- Python `max(iterable)`: raises `ValueError` on an empty iterable,
modelled as `Except.error` carrying the interpreter's message. -/
def pyMax : List Nat → Except String Nat
  | [] => .error "max() arg is an empty sequence"
  | x :: xs => .ok (xs.foldl max x)

/-- The auto-generated filler column name `Part{i}`. -/
def partName (i : Nat) : List Char := ("Part" ++ toString i).toList

/-- `write_to_tsv` from `flu_parse_header.py`, returning the rows it
writes (header row first), or the uncaught `ValueError` from `max` when
`split_headers` is empty. -/
def write_to_tsv (original_headers : List (List Char))
    (split_headers : List (List (List Char)))
    (column_names : List (List Char)) :
    Except String (List (List (List Char))) :=
  match pyMax (split_headers.map List.length) with
  | .error e => .error e
  | .ok max_columns =>
    let cn :=
      if column_names.length < max_columns then
        column_names ++
          (List.range' (column_names.length + 1) (max_columns - column_names.length)).map partName
      else column_names
    let headerRow := "OriginalHeader".toList :: cn.take max_columns
    let dataRows := (original_headers.zip split_headers).map
      (fun p => p.1 :: (p.2 ++ List.replicate (max_columns - p.2.length) []))
    .ok (headerRow :: dataRows)

end HeaderSplitter

namespace SeqidValidate

/-- One row of the metadata table: its `seqid` column value and the rest
of the row's cells. -/
structure MetaRow where
  seqid : List Char
  rest : List (List Char)
deriving DecidableEq

/-- `record.id.split('_')[0]` from `parse_fasta` in `seqid_validate.py`:
the chunk of the identifier before the first underscore. -/
def truncateSeqid (s : List Char) : List Char :=
  (HeaderSplitter.pySplit '_' s).headI

/-- `parse_fasta`: collect the truncated record identifiers into a set. -/
def parse_fasta (ids : List (List Char)) : Finset (List Char) :=
  (ids.map truncateSeqid).toFinset

/-- `parse_metadata` id-set: the set of values of the `seqid` column. -/
def parse_metadata (rows : List MetaRow) : Finset (List Char) :=
  (rows.map MetaRow.seqid).toFinset

/-- The five quantities printed by `compare_ids`, in the order they are
printed. -/
structure Report where
  num_fasta : Nat
  num_metadata : Nat
  num_common : Nat
  num_fasta_only : Nat
  num_metadata_only : Nat
deriving DecidableEq

/-- The counting part of `compare_ids` in `seqid_validate.py`. -/
def compare_ids (ids : List (List Char)) (rows : List MetaRow) : Report :=
  let fasta_ids := parse_fasta ids
  let metadata_ids := parse_metadata rows
  { num_fasta := fasta_ids.card
    num_metadata := metadata_ids.card
    num_common := (fasta_ids ∩ metadata_ids).card
    num_fasta_only := (fasta_ids \ metadata_ids).card
    num_metadata_only := (metadata_ids \ fasta_ids).card }

/-- The filtered-metadata output of `compare_ids`:
`metadata_df[metadata_df.seqid.isin(fasta_ids)]`. -/
def filtered_metadata (rows : List MetaRow) (fasta_ids : Finset (List Char)) : List MetaRow :=
  rows.filter (fun r => decide (r.seqid ∈ fasta_ids))

end SeqidValidate

namespace TrimFasta

/-- A FASTA record: identifier and residue string. -/
structure SeqRecord where
  id : List Char
  seq : List Char
deriving DecidableEq

/-- The Python slice `seq[start:stop]` for non-negative coordinates. -/
def pySlice (start stop : Nat) (l : List Char) : List Char :=
  (l.drop start).take (stop - start)

/-- The record loop of `trim_fasta` in `trim_fasta.py`: every record is
replaced by `record[start_position:stop_position]`. -/
def trim_fasta (start_position stop_position : Nat) (records : List SeqRecord) :
    List SeqRecord :=
  records.map (fun r => { r with seq := pySlice start_position stop_position r.seq })

end TrimFasta

namespace Rmdup

/-- Classification of the input path, as tested by `os.path.isfile` and
`os.path.isdir` in `remove_duplicates`; a directory carries the list of
files found by `os.walk`. -/
inductive PathKind
  | file
  | dir (files : List (List Char))
  | other

/-- Outcome of a `rmdup.py` run: the output files written, a propagated
`subprocess.CalledProcessError`, or the distinct invalid-path report. -/
inductive RmdupResult
  | done (outputs : List (List Char))
  | calledProcessError (file : List Char) (code : Int)
  | invalidPathError (path : List Char)
deriving DecidableEq

/-- `os.path.basename`: the part of the path after the last slash. -/
def basename (p : List Char) : List Char :=
  (p.reverse.takeWhile (fun c => c != '/')).reverse

/-- `os.path.splitext(p)[0]`: the path with its last dot-extension
removed (unchanged when there is no dot). -/
def splitextBase (p : List Char) : List Char :=
  let revExt := p.reverse.takeWhile (fun c => c != '.')
  if revExt.length < p.length then p.take (p.length - revExt.length - 1) else p

/-- The output path `os.path.join(output_dir, f"{base_filename}.rmdup.fasta")`. -/
def output_file_for (output_dir f : List Char) : List Char :=
  output_dir ++ '/' :: (splitextBase (basename f) ++ ".rmdup.fasta".toList)

/-- `subprocess.run(cmd, check=True)`: returns normally on a zero exit
status and raises `CalledProcessError` otherwise. -/
def subprocessRunCheck (exitCode : Int) : Except Int Unit :=
  if exitCode = 0 then .ok () else .error exitCode

/-- `run_seqkit_rmdup` from `rmdup.py`, with the external process's exit
status for each input file given by `exit`: writes `output_file` and
returns it on success; a nonzero exit status propagates. -/
def run_seqkit_rmdup (exit : List Char → Int) (input_file output_file : List Char) :
    Except (List Char × Int) (List Char) :=
  match subprocessRunCheck (exit input_file) with
  | .ok _ => .ok output_file
  | .error c => .error (input_file, c)

/-- The per-file loop of directory mode: process each file in order,
halting with the propagated error on the first failure. -/
def processFiles (exit : List Char → Int) (output_dir : List Char) :
    List (List Char) → List (List Char) → RmdupResult
  | [], acc => .done acc.reverse
  | f :: fs, acc =>
    match run_seqkit_rmdup exit f (output_file_for output_dir f) with
    | .ok out => processFiles exit output_dir fs (out :: acc)
    | .error e => .calledProcessError e.1 e.2

/-- `remove_duplicates` from `rmdup.py`: a file is processed directly, a
directory has each of its `.fasta` files processed, and any other path is
reported as invalid. -/
def remove_duplicates (exit : List Char → Int) (input_path : List Char)
    (kind : PathKind) (output_dir : List Char) : RmdupResult :=
  match kind with
  | .file =>
    match run_seqkit_rmdup exit input_path (output_file_for output_dir input_path) with
    | .ok out => .done [out]
    | .error e => .calledProcessError e.1 e.2
  | .dir files =>
    processFiles exit output_dir (files.filter (fun f => ".fasta".toList.isSuffixOf f)) []
  | .other => .invalidPathError input_path

end Rmdup

namespace HeaderSplitter

theorem pySplit_ne_nil (c : Char) (l : List Char) : pySplit c l ≠ [] := by
  cases l with
  | nil => simp [pySplit]
  | cons x xs =>
    simp only [pySplit]
    split
    · simp
    · cases h : pySplit c xs <;> simp

/-- The count of header lines whose stripped header matches the
delimiter-pair regex. -/
def matchingHeaderCount (lines : List (List Char)) : Nat :=
  lines.countP (fun line =>
    line.head? == some '>' && (findDelimToken (pyStrip (line.drop 1))).isSome)

theorem extract_snd_length (lines : List (List Char)) :
    (extract_and_split_headers lines).2.length = matchingHeaderCount lines := by
  induction lines with
  | nil => rfl
  | cons line rest ih =>
    rw [matchingHeaderCount, List.countP_cons, ← matchingHeaderCount, ← ih]
    by_cases hh : line.head? = some '>'
    · cases hf : findDelimToken (pyStrip (line.drop 1)) with
      | some tok =>
        simp only [List.drop_one] at hf
        simp [extract_and_split_headers, hh, hf]
      | none =>
        simp only [List.drop_one] at hf
        simp [extract_and_split_headers, hh, hf]
    · simp [extract_and_split_headers, hh]

theorem extract_snd_length_le (lines : List (List Char)) :
    (extract_and_split_headers lines).2.length
      ≤ (extract_and_split_headers lines).1.length := by
  induction lines with
  | nil => exact Nat.le_refl 0
  | cons line rest ih =>
    simp only [extract_and_split_headers]
    by_cases hh : line.head? = some '>'
    · cases hf : findDelimToken (pyStrip (line.drop 1)) with
      | some tok =>
        simp only [List.drop_one] at hf
        simpa [hh, hf] using ih
      | none =>
        simp only [List.drop_one] at hf
        simp [hh, hf]
        omega
    · simpa [hh] using ih

end HeaderSplitter

namespace HeaderSplitterClaims

open HeaderSplitter

/-- C1: the claim that the `OriginalHeader` cell and the field cells of a
data row always come from the same input record fails on the code: on a
file whose first header has no delimiter pair and whose second header is
`A|x/y|`, `extract_and_split_headers` collects both originals but only one
split list, and the `zip` in `write_to_tsv` pairs the unmatched first
header with the second record's fields (the matched header is dropped). -/
theorem row_pairing_misaligned :
    findDelimToken "header_no_match".toList = none ∧
    extract_and_split_headers
        [">header_no_match".toList, "ACGT".toList, ">A|x/y|".toList, "ACGT".toList]
      = (["header_no_match".toList, "A|x/y|".toList], [["x".toList, "y".toList]]) ∧
    write_to_tsv ["header_no_match".toList, "A|x/y|".toList] [["x".toList, "y".toList]]
        ["c1".toList, "c2".toList]
      = .ok [["OriginalHeader".toList, "c1".toList, "c2".toList],
             ["header_no_match".toList, "x".toList, "y".toList]] :=
  ⟨by decide, by decide, by rfl⟩

/-- C2: on an input in which no header line yields a delimiter-bounded
token (an empty file, or a file whose only header has no delimiter pair),
`write_to_tsv` computes `max` over an empty sequence, so the program dies
with the uncaught `ValueError` rather than a "no records found"
condition. -/
theorem empty_input_uncaught_valueerror :
    extract_and_split_headers [] = ([], []) ∧
    write_to_tsv [] [] ["c1".toList] = .error "max() arg is an empty sequence" ∧
    extract_and_split_headers [">plainheader".toList, "ACGT".toList]
      = (["plainheader".toList], []) ∧
    write_to_tsv ["plainheader".toList] [] ["c1".toList]
      = .error "max() arg is an empty sequence" :=
  ⟨by decide, by rfl, by decide, by rfl⟩

end HeaderSplitterClaims

namespace HeaderSplitter

/-- C3: when at least one header matches the delimiter-pair regex,
`write_to_tsv` succeeds (so non-matching headers raise no error) and the
number of rows written is one header row plus exactly one data row per
matching header line: non-matching header lines contribute no row. -/
theorem skip_semantics (lines : List (List Char)) (column_names : List (List Char))
    (h : 0 < HeaderSplitter.matchingHeaderCount lines) :
    (write_to_tsv (extract_and_split_headers lines).1
        (extract_and_split_headers lines).2 column_names).map List.length
      = .ok (1 + HeaderSplitter.matchingHeaderCount lines) := by
  have hlen := extract_snd_length lines
  have hle := extract_snd_length_le lines
  cases hshs : (extract_and_split_headers lines).2 with
  | nil =>
    rw [hshs] at hlen
    simp only [List.length_nil] at hlen
    omega
  | cons s ss =>
    rw [hshs] at hlen hle
    simp only [write_to_tsv, List.map_cons, pyMax, Except.map, List.length_cons,
      List.length_map, List.length_zip, Except.ok.injEq]
    simp only [List.length_cons] at hlen hle
    omega

/-- Closed instance of `skip_semantics`: a file with one matching header,
one non-matching header and sequence lines yields a header row plus
exactly one data row. -/
theorem skip_semantics_witness :
    0 < HeaderSplitter.matchingHeaderCount
        [">A|x/y|".toList, "ACGT".toList, ">nopair".toList, "ACGT".toList] ∧
    (write_to_tsv
        (extract_and_split_headers
          [">A|x/y|".toList, "ACGT".toList, ">nopair".toList, "ACGT".toList]).1
        (extract_and_split_headers
          [">A|x/y|".toList, "ACGT".toList, ">nopair".toList, "ACGT".toList]).2
        ["c1".toList]).map List.length
      = .ok (1 + HeaderSplitter.matchingHeaderCount
          [">A|x/y|".toList, "ACGT".toList, ">nopair".toList, "ACGT".toList]) :=
  ⟨by decide,
   skip_semantics [">A|x/y|".toList, "ACGT".toList, ">nopair".toList, "ACGT".toList]
     ["c1".toList] (by decide)⟩

/-- C4: when the maximum field count over the retained records is `M`,
the emitted header row is `OriginalHeader` followed by the first `M`
names of the user-supplied list extended with auto-generated names
`Part{N}` for positions `len(list)+1` through `M` (for a list of length
at least `M` the extension is empty and the list is truncated to `M`). -/
theorem column_naming (original_headers : List (List Char))
    (split_headers : List (List (List Char))) (column_names : List (List Char))
    (M : Nat) (hM : pyMax (split_headers.map List.length) = .ok M) :
    (write_to_tsv original_headers split_headers column_names).map List.head?
      = .ok (some ("OriginalHeader".toList ::
          (column_names ++
            (List.range' (column_names.length + 1) (M - column_names.length)).map
              partName).take M)) := by
  simp only [write_to_tsv, hM, Except.map, List.head?_cons, Option.some.injEq]
  by_cases hlt : column_names.length < M
  · simp [hlt]
  · have h0 : M - column_names.length = 0 := by omega
    simp [hlt, h0]

/-- Closed instance of `column_naming`: two supplied column names with a
record of 5 fields yield the header row
`OriginalHeader, type, host, Part3, Part4, Part5`. -/
theorem column_naming_witness :
    pyMax ([["A".toList, "human".toList, "Victoria".toList, "1234".toList,
        "2024".toList]].map List.length) = .ok 5 ∧
    (write_to_tsv ["hdr".toList]
        [["A".toList, "human".toList, "Victoria".toList, "1234".toList, "2024".toList]]
        ["type".toList, "host".toList]).map List.head?
      = .ok (some ["OriginalHeader".toList, "type".toList, "host".toList,
          "Part3".toList, "Part4".toList, "Part5".toList]) :=
  ⟨by rfl, by
    have h := column_naming ["hdr".toList]
      [["A".toList, "human".toList, "Victoria".toList, "1234".toList, "2024".toList]]
      ["type".toList, "host".toList] 5 (by rfl)
    exact h.trans (by rfl)⟩

end HeaderSplitter

namespace HeaderSplitter

theorem pySplit_headI (c : Char) (l : List Char) :
    (pySplit c l).headI = l.takeWhile (fun x => x != c) := by
  induction l with
  | nil => rfl
  | cons x xs ih =>
    by_cases hx : x = c
    · subst hx
      simp [pySplit, List.takeWhile_cons]
    · cases h : pySplit c xs with
      | nil => exact absurd h (pySplit_ne_nil c xs)
      | cons p ps =>
        have hp : p = xs.takeWhile (fun y => y != c) := by
          have h2 := ih
          rw [h] at h2
          simpa using h2
        simp [pySplit, hx, h, List.takeWhile_cons, hp]

end HeaderSplitter

namespace SeqidValidate

/-- The sequence-file identifier set as the spec describes it: the set of
identifiers obtained by truncating each record identifier at the first
underscore. -/
def fastaIdSetSpec (ids : List (List Char)) : Finset (List Char) :=
  (ids.map (fun s => s.takeWhile (fun c => c != '_'))).toFinset

theorem truncateSeqid_eq_takeWhile (s : List Char) :
    truncateSeqid s = s.takeWhile (fun c => c != '_') :=
  HeaderSplitter.pySplit_headI '_' s

theorem parse_fasta_eq_spec (ids : List (List Char)) :
    parse_fasta ids = fastaIdSetSpec ids := by
  unfold parse_fasta fastaIdSetSpec
  rw [funext truncateSeqid_eq_takeWhile]

/-- C5: the five quantities reported by `compare_ids` are, in order, the
cardinalities of `F`, `M`, `F ∩ M`, `F − M` and `M − F`, where `F` is the
set of record identifiers truncated at the first underscore and `M` the
set of `seqid` column values; in particular `F = {A,B,C}` (from ids
`A_1, A_2, B_1, C_1`) and `M = {B,C,D}` report `3, 3, 2, 1, 1`. -/
theorem reported_quantities :
    (∀ (ids : List (List Char)) (rows : List MetaRow),
      compare_ids ids rows =
        { num_fasta := (fastaIdSetSpec ids).card
          num_metadata := (parse_metadata rows).card
          num_common := (fastaIdSetSpec ids ∩ parse_metadata rows).card
          num_fasta_only := (fastaIdSetSpec ids \ parse_metadata rows).card
          num_metadata_only := (parse_metadata rows \ fastaIdSetSpec ids).card }) ∧
    compare_ids ["A_1".toList, "A_2".toList, "B_1".toList, "C_1".toList]
        [⟨"B".toList, []⟩, ⟨"C".toList, []⟩, ⟨"D".toList, []⟩]
      = ⟨3, 3, 2, 1, 1⟩ := by
  constructor
  · intro ids rows
    simp only [compare_ids, parse_fasta_eq_spec]
  · decide

/-- C6: the filtered metadata table is a sublist of the original table
(row order preserved) and contains exactly the rows whose `seqid` is in
the sequence-file identifier set, with multiplicity. -/
theorem filtered_metadata_rows (ids : List (List Char)) (rows : List MetaRow) :
    (filtered_metadata rows (parse_fasta ids)).Sublist rows ∧
    (∀ r, r ∈ filtered_metadata rows (parse_fasta ids) ↔
      r ∈ rows ∧ r.seqid ∈ parse_fasta ids) ∧
    (∀ r, (filtered_metadata rows (parse_fasta ids)).count r =
      if r.seqid ∈ parse_fasta ids then rows.count r else 0) := by
  refine ⟨List.filter_sublist rows, ?_, ?_⟩
  · intro r
    simp [filtered_metadata, List.mem_filter]
  · intro r
    by_cases hr : r.seqid ∈ parse_fasta ids
    · rw [if_pos hr]
      apply List.count_filter
      simpa using hr
    · rw [if_neg hr]
      rw [List.count_eq_zero]
      intro hmem
      simp only [filtered_metadata, List.mem_filter] at hmem
      exact hr (by simpa using hmem.2)

/-- C10: the reported quantities always satisfy
`|F| = |F ∩ M| + |F − M|` and `|M| = |F ∩ M| + |M − F|`: the intersection
and the one-sided differences partition each input set. -/
theorem count_partition (ids : List (List Char)) (rows : List MetaRow) :
    (compare_ids ids rows).num_fasta
        = (compare_ids ids rows).num_common + (compare_ids ids rows).num_fasta_only ∧
    (compare_ids ids rows).num_metadata
        = (compare_ids ids rows).num_common + (compare_ids ids rows).num_metadata_only := by
  constructor
  · simp only [compare_ids]
    exact (Finset.card_inter_add_card_sdiff _ _).symm
  · simp only [compare_ids]
    rw [Finset.inter_comm]
    exact (Finset.card_inter_add_card_sdiff _ _).symm

end SeqidValidate

namespace TrimFasta

theorem pySlice_eq_take_drop (a b : Nat) (l : List Char) :
    pySlice a b l = (l.take b).drop a := by
  unfold pySlice
  by_cases h : a ≤ b
  · have hab : a + (b - a) = b := by omega
    rw [List.take_drop, hab]
  · have h1 : b - a = 0 := by omega
    rw [h1, List.take_zero]
    symm
    apply List.drop_eq_nil_of_le
    have h2 := List.length_take b l
    omega

/-- C7: every output record's residue string is the zero-based,
stop-exclusive subsequence `[start, stop)` of the input residues
(equivalently `take stop` then `drop start`), the residue at offset `i`
of the output is the input residue at position `start + i` when
`start + i < stop` and absent otherwise (so out-of-range coordinates clip
to the available length instead of failing), and in particular a
length-10 record trimmed to `[2,5)` keeps the residues at positions
2, 3, 4 while `[8,20)` yields the 2 remaining residues. -/
theorem trim_fasta_slicing_semantics :
    (∀ (a b : Nat) (records : List SeqRecord),
      trim_fasta a b records
        = records.map (fun r => { r with seq := (r.seq.take b).drop a })) ∧
    (∀ (a b : Nat) (l : List Char) (i : Nat),
      (pySlice a b l)[i]? = if a + i < b then l[a + i]? else none) ∧
    trim_fasta 2 5 [⟨"rec".toList, "ABCDEFGHIJ".toList⟩]
      = [⟨"rec".toList, "CDE".toList⟩] ∧
    trim_fasta 8 20 [⟨"rec".toList, "ABCDEFGHIJ".toList⟩]
      = [⟨"rec".toList, "IJ".toList⟩] := by
  refine ⟨?_, ?_, by decide, by decide⟩
  · intro a b records
    unfold trim_fasta
    apply List.map_congr_left
    intro r _
    rw [pySlice_eq_take_drop]
  · intro a b l i
    unfold pySlice
    by_cases hc : i < b - a
    · rw [List.getElem?_take_of_lt hc, List.getElem?_drop, if_pos (by omega)]
    · rw [if_neg (by omega)]
      apply List.getElem?_eq_none
      have h2 := List.length_take (b - a) (l.drop a)
      have h3 := List.length_drop a l
      omega

/-- C8: trimming with `start = 0` and `stop` equal to the record's full
residue length is the identity on the record. -/
theorem trim_fasta_full_window_identity (r : SeqRecord) :
    trim_fasta 0 r.seq.length [r] = [r] := by
  simp [trim_fasta, pySlice]

/-- Closed instance of `trim_fasta_full_window_identity` at a concrete
record. -/
theorem trim_fasta_full_window_identity_witness :
    trim_fasta 0 ("ACGT".toList.length) [⟨"rec".toList, "ACGT".toList⟩]
      = [⟨"rec".toList, "ACGT".toList⟩] :=
  trim_fasta_full_window_identity ⟨"rec".toList, "ACGT".toList⟩

end TrimFasta

namespace Rmdup

/-- C9: a nonzero exit status of the external `seqkit` process propagates
as a hard failure of that file's processing — both in single-file mode
and for the first processed file of directory mode — while a path that is
neither a file nor a directory is reported with the distinct invalid-path
outcome, which differs from any processing failure. -/
theorem failure_propagation (exit : List Char → Int) (p q outDir : List Char)
    (fs : List (List Char)) (hnz : exit p ≠ 0)
    (hsuf : (".fasta".toList).isSuffixOf p = true) :
    remove_duplicates exit p .file outDir = .calledProcessError p (exit p) ∧
    remove_duplicates exit q (.dir (p :: fs)) outDir = .calledProcessError p (exit p) ∧
    remove_duplicates exit q .other outDir = .invalidPathError q ∧
    (∀ f c, RmdupResult.invalidPathError q ≠ RmdupResult.calledProcessError f c) := by
  refine ⟨?_, ?_, rfl, by intro f c; simp⟩
  · simp [remove_duplicates, run_seqkit_rmdup, subprocessRunCheck, hnz]
  · simp only [remove_duplicates]
    rw [List.filter_cons_of_pos hsuf]
    simp [processFiles, run_seqkit_rmdup, subprocessRunCheck, hnz]

/-- Closed instance of `failure_propagation`: exit status 1 on
`a.fasta` is a hard failure in both modes, and the invalid-path report
is distinct from it. -/
theorem failure_propagation_witness :
    remove_duplicates (fun _ => 1) "a.fasta".toList .file "out".toList
        = .calledProcessError "a.fasta".toList 1 ∧
    remove_duplicates (fun _ => 1) "bad".toList (.dir ["a.fasta".toList]) "out".toList
        = .calledProcessError "a.fasta".toList 1 ∧
    remove_duplicates (fun _ => 1) "bad".toList .other "out".toList
        = .invalidPathError "bad".toList ∧
    (∀ f c, RmdupResult.invalidPathError "bad".toList
        ≠ RmdupResult.calledProcessError f c) :=
  failure_propagation (fun _ => 1) "a.fasta".toList "bad".toList "out".toList []
    (by decide) (by decide)

end Rmdup
